import Mathlib

/-!
Verification of the MusicTimeMachine chart-extraction and track-resolution
pipeline.  Python source files are shallowly embedded as Lean functions over
`List Char` strings; the regex calls of the title normalizer are embedded
with Python `re` semantics (leftmost match, greedy quantifiers, `.` not
matching a newline, `$` matching at the end of the string or just before a
final trailing newline).
-/

namespace MusicTM

/-- Python strings are modelled as lists of characters. -/
abbrev Str := List Char

/-- The whitespace characters stripped by Python `str.strip()` and matched by
the `\s` regex class (ASCII part; the titles handled by the program are
chart names in ASCII). -/
def isPySpace (c : Char) : Bool :=
  c == ' ' || c == '\t' || c == '\n' || c == '\r' || c == '\x0b' || c == '\x0c'

/-- Drop trailing characters satisfying `p`. -/
def dropTrail (p : Char → Bool) (s : Str) : Str :=
  (s.reverse.dropWhile p).reverse

/-- Python `str.strip()`. -/
def pyStrip (s : Str) : Str :=
  dropTrail isPySpace (s.dropWhile isPySpace)

/-- Case-insensitive prefix match against an (already lowercase) pattern,
as performed by `re` with `re.IGNORECASE` on the ASCII patterns used by
the program. -/
def icStartsWith : Str → Str → Bool
  | [], _ => true
  | _ :: _, [] => false
  | p :: ps, c :: cs => (c.toLower == p) && icStartsWith ps cs

/-- Case-insensitive substring occurrence test (`pat in s.lower()` /
an `re.IGNORECASE` search for a literal pattern). -/
def icContains (pat : Str) : Str → Bool
  | [] => icStartsWith pat []
  | c :: cs => icStartsWith pat (c :: cs) || icContains pat cs

/-- Left-to-right scan implementing `re.sub` for a pattern of the shape
`\(<open>[^<close>]*<close>`, e.g. `re.sub(r'\([^)]*\)', '', title)`.
`buf` is `some b` (with `b` reversed) while the scan sits inside a candidate
group opened by `o` that has not yet seen its closing `c`; an unclosed group
at the end of the string is emitted unchanged, matching the regex engine
finding no match there. -/
def removeDelimsAux (o c : Char) : Str → Option Str → Str
  | [], none => []
  | [], some buf => buf.reverse
  | x :: xs, none =>
    if x == o then removeDelimsAux o c xs (some [x])
    else x :: removeDelimsAux o c xs none
  | x :: xs, some buf =>
    if x == c then removeDelimsAux o c xs none
    else removeDelimsAux o c xs (some (x :: buf))

/-- Python `re.sub(r'\([^)]*\)', '', s)` (and the bracket analogue):
removes every leftmost-first delimited group. -/
def removeDelims (o c : Char) (s : Str) : Str :=
  removeDelimsAux o c s none

/-- Python `re.sub(pat ++ r'.*$', '', s, flags=re.IGNORECASE)` for a literal
pattern `pat` (no newline in `pat`): the suffix starting at the leftmost
position where `pat` matches is removed, provided `.*$` can bridge from the
end of `pat` to the end of the string — i.e. the remaining tail contains no
newline other than possibly a single final one, which is then left in
place. -/
def subSuffix (pat : Str) : Str → Str
  | [] => []
  | c :: cs =>
    let t := (c :: cs).drop pat.length
    if icStartsWith pat (c :: cs) && !(t.dropLast.contains '\n') then
      if t.contains '\n' then ['\n'] else []
    else c :: subSuffix pat cs

/-- Model of `AppleMusicEDMScraper._clean_title`: strips parenthesized and bracketed
groups, then case-insensitive `feat.` / `ft.` / `remix` / `radio edit`
suffixes, then surrounding whitespace. -/
def cleanTitle (s : Str) : Str :=
  pyStrip
    (subSuffix "radio edit".toList
      (subSuffix "remix".toList
        (subSuffix "ft.".toList
          (subSuffix "feat.".toList
            (removeDelims '[' ']'
              (removeDelims '(' ')' s))))))


/-! ### `AppleMusicEDMScraper._extract_artist_from_title` -/

/-- Case-sensitive prefix match (plain substring tests such as
Python `' - ' in title`). -/
def startsWithL : Str → Str → Bool
  | [], _ => true
  | _ :: _, [] => false
  | p :: ps, c :: cs => (c == p) && startsWithL ps cs

/-- Index of the first occurrence of `sep` in `s`, if any (Python
`sep in s` / the scan done by `str.split(sep)`). -/
def subAt? (sep : Str) : Str → Option Nat
  | [] => if sep.isEmpty then some 0 else none
  | c :: cs =>
    if startsWithL sep (c :: cs) then some 0
    else (subAt? sep cs).map (· + 1)

/-- Model of `s.split(sep)[0]` when `sep` occurs in `s`: the part before the first
occurrence. -/
def part0 (sep s : Str) : Option Str :=
  (subAt? sep s).map fun i => s.take i

/-- Model of `s.split(sep)[1]` when `sep` occurs in `s`: the part between the first
occurrence and the next non-overlapping one (or the end). -/
def part1 (sep s : Str) : Option Str :=
  (subAt? sep s).map fun i =>
    let rest := s.drop (i + sep.length)
    match subAt? sep rest with
    | some j => rest.take j
    | none => rest

/-- Pattern 1 of `_extract_artist_from_title`, tried at one position:
`re` match of `\(([^)]+)\s+remix\)` (IGNORECASE) starting here, returning
the greedy capture group.  The group runs to the first `)` and must end
with a whitespace character followed by the literal `remix` right before
that `)`. -/
def remixGroupAt : Str → Option Str
  | [] => none
  | c :: cs =>
    if c == '(' then
      let content := cs.takeWhile (· != ')')
      if content.length < cs.length && 5 ≤ content.length
          && icStartsWith "remix".toList (content.drop (content.length - 5)) then
        let d := content.take (content.length - 5)
        match d.getLast? with
        | some w =>
          if isPySpace w && !d.dropLast.isEmpty then some d.dropLast else none
        | none => none
      else none
    else none

/-- Model of `re.search(r'\(([^)]+)\s+remix\)', title, re.IGNORECASE)`:
leftmost match wins. -/
def searchRemixGroup : Str → Option Str
  | [] => none
  | c :: cs =>
    match remixGroupAt (c :: cs) with
    | some g => some g
    | none => searchRemixGroup cs

/-- The `\s+([^)\]]+)` tail of pattern 2, matched at one position with
greedy `\s+` and the one-step backtrack the engine performs when the
character after the whitespace run is `)` , `]` or the end. -/
def featRestAt (s : Str) : Option Str :=
  let w := s.takeWhile isPySpace
  if w.isEmpty then none
  else
    let g := (s.drop w.length).takeWhile fun c => c != ')' && c != ']'
    if !g.isEmpty then some g
    else if 2 ≤ w.length then (w.getLast?).map fun l => [l]
    else none

/-- Pattern 2 at one position: `(?:feat\.?|ft\.?)\s+([^)\]]+)` with
IGNORECASE; the optional dot is greedy, with backtracking. -/
def featAt (s : Str) : Option Str :=
  (if icStartsWith "feat".toList s then
    (match s.drop 4 with
     | '.' :: r => (featRestAt r).orElse fun _ => featRestAt (s.drop 4)
     | after => featRestAt after)
   else none).orElse fun _ =>
    if icStartsWith "ft".toList s then
      match s.drop 2 with
      | '.' :: r => (featRestAt r).orElse fun _ => featRestAt (s.drop 2)
      | after => featRestAt after
    else none

/-- Model of `re.search` of pattern 2: leftmost match. -/
def searchFeat : Str → Option Str
  | [] => none
  | c :: cs =>
    match featAt (c :: cs) with
    | some g => some g
    | none => searchFeat cs

/-- Whether a string begins with a whitespace character. -/
def headIsWS : Str → Bool
  | [] => false
  | c :: _ => isPySpace c

/-- Pattern 5 at one position: `\s+(&|and)\s+` (case sensitive). -/
def ampAt (s : Str) : Bool :=
  let w := s.takeWhile isPySpace
  if w.isEmpty then false
  else
    match s.drop w.length with
    | '&' :: r => headIsWS r
    | rest => startsWithL "and".toList rest && headIsWS (rest.drop 3)

/-- Model of `re.search(r'\s+(&|and)\s+', title)`: index of the leftmost match. -/
def searchAmpIdx : Str → Nat → Option Nat
  | [], _ => none
  | c :: cs, i => if ampAt (c :: cs) then some i else searchAmpIdx cs (i + 1)

/-- Python `str.split()` with no argument: split on whitespace runs,
discarding empty pieces.  `cur` carries the current word reversed. -/
def splitWSAux : Str → Str → List Str
  | [], cur => if cur.isEmpty then [] else [cur.reverse]
  | c :: cs, cur =>
    if isPySpace c then
      if cur.isEmpty then splitWSAux cs [] else cur.reverse :: splitWSAux cs []
    else splitWSAux cs (c :: cur)

def splitWS (s : Str) : List Str := splitWSAux s []

/-- The apostrophe character (the pattern 4 separator is apostrophe
followed by the letter s). -/
def aposS : Str := [Char.ofNat 39, 's']

/-- Model of `AppleMusicEDMScraper._extract_artist_from_title`: five heuristic
patterns tried in order, first successful one returned; empty string when
none applies. -/
def extractArtist (title : Str) : Str :=
  match searchRemixGroup title with
  | some g => pyStrip g
  | none =>
    match searchFeat title with
    | some g => pyStrip g
    | none =>
      match part1 " - ".toList title with
      | some p => pyStrip p
      | none =>
        match part0 aposS title with
        | some p => pyStrip p
        | none =>
          match searchAmpIdx title 0 with
          | some i =>
            if 0 < i then
              match (splitWS (pyStrip (title.take i))).getLast? with
              | some w => w
              | none => []
            else []
          | none => []


/-! ### `PlaylistBuilder` (`playlist_builder.py`) -/

/-- One track candidate as returned by the external search API: the fields
of `items[0]` that `search_song` reads (`uri`, `name`, and the
`artists` array accessed by the result-logging line). -/
structure Candidate where
  uri : Str
  name : Str
  artistNames : List Str
deriving DecidableEq

/-- Outcome of one call to the external search API: either a transport/API
exception or a (possibly empty) candidate list. -/
inductive ApiResult where
  | threw : ApiResult
  | ok : List Candidate → ApiResult
deriving DecidableEq

/-- A recorded call to the search API: the query string and the requested
result count. -/
structure SearchCall where
  query : Str
  resultCap : Nat
deriving DecidableEq

/-- The fielded query built by `search_song`:
`f"track:{title}"` plus, when `artist` is truthy, `f" artist:{artist}"`. -/
def buildQuery (title artist : Str) : Str :=
  "track:".toList ++ title ++
    (if artist.isEmpty then [] else " artist:".toList ++ artist)

/-- Model of `PlaylistBuilder.search_song`, with the API modelled as a function from
(query, result cap) to an `ApiResult`, returning the resolved URI (or
`none`) together with the list of API calls issued.  When the first
candidate has an empty `artists` array, the logging line
`items[0]['artists'][0]['name']` raises; the surrounding handler catches it
and the function returns `none`. -/
def searchSong (clientOk : Bool) (api : Str → Nat → ApiResult)
    (title artist : Str) : Option Str × List SearchCall :=
  if !clientOk then (none, [])
  else
    let q := buildQuery title artist
    match api q 1 with
    | .threw => (none, [⟨q, 1⟩])
    | .ok items =>
      match items with
      | [] => (none, [⟨q, 1⟩])
      | cand :: _ =>
        match cand.artistNames with
        | [] => (none, [⟨q, 1⟩])
        | _ :: _ => (some cand.uri, [⟨q, 1⟩])

/-- A raw track record handed to `create_playlist`: the 3-tuple shape
`(position, title, artist)` carries `rank = some _`, the 2-tuple shape
`(title, artist)` carries `rank = none`. -/
structure TrackRec where
  rank : Option Str
  title : Str
  artist : Str
deriving DecidableEq

/-- The batching of `for i in range(0, len(uris), 100)` with slices
`uris[i:i+100]`, implemented as a single structural pass; `acc` is the
current batch reversed and `room` the space left in it. -/
def chunksAux {α : Type} : List α → List α → Nat → List (List α)
  | [], acc, _ => if acc.isEmpty then [] else [acc.reverse]
  | x :: xs, acc, room =>
    match room with
    | 0 => acc.reverse :: chunksAux xs [x] 99
    | r + 1 => chunksAux xs (x :: acc) r

/-- Split a list into consecutive batches of 100. -/
def chunks100 {α : Type} (l : List α) : List (List α) :=
  chunksAux l [] 100

/-- Trace of the externally visible actions of one `create_playlist` run:
the `(title, artist)` pairs it attempted to resolve, the URIs collected for
adding, the number of playlist-creation calls, and the batches passed to
the add-items calls, in order. -/
structure AsmTrace where
  searched : List (Str × Str)
  collected : List Str
  createCalls : Nat
  addCalls : List (List Str)
deriving DecidableEq

/-- The resolution loop of `create_playlist`: resolve each record via
`search_song`, appending the URI when one is found. -/
def collectUris (resolve : Str → Str → Option Str) : List TrackRec → List Str
  | [] => []
  | r :: rs =>
    match resolve r.title r.artist with
    | some u => u :: collectUris resolve rs
    | none => collectUris resolve rs

/-- Model of `PlaylistBuilder.create_playlist`.  External behaviour is parameterised:
`clientOk` is whether Spotify authentication produced a client, `createOk`
whether `user_playlist_create` succeeds, and `addFailAt = some k` makes the
k-th (0-based) `playlist_add_items` call raise, aborting the loop (earlier
batches stay committed).  Returns the overall result (`some ()` for the
playlist URL, `none` for the Python `None`) and the action trace. -/
def createPlaylist (api : Str → Nat → ApiResult) (clientOk createOk : Bool)
    (addFailAt : Option Nat) (tracksData : List TrackRec) (lim : Nat) :
    Option Unit × AsmTrace :=
  if tracksData.isEmpty then (none, ⟨[], [], 0, []⟩)
  else if !clientOk then (none, ⟨[], [], 0, []⟩)
  else
    let attempted := tracksData.take lim
    let uris := collectUris (fun t a => (searchSong clientOk api t a).1) attempted
    let searchedPairs := attempted.map fun r => (r.title, r.artist)
    if uris.isEmpty then (none, ⟨searchedPairs, uris, 0, []⟩)
    else if !createOk then (none, ⟨searchedPairs, uris, 1, []⟩)
    else
      let bs := chunks100 uris
      match addFailAt with
      | none => (some (), ⟨searchedPairs, uris, 1, bs⟩)
      | some k =>
        if k < bs.length then (none, ⟨searchedPairs, uris, 1, bs.take (k + 1)⟩)
        else (some (), ⟨searchedPairs, uris, 1, bs⟩)

/-! ### Chart source adapters (`scrapers/`)

The HTML fetching and BeautifulSoup selector evaluation are external
collaborators; each adapter is embedded as a function from the outcome of
that collaborator (an exception, or the per-element extraction results) to
the value `scrape` returns together with the `tracks_data` state read back
by `get_tracks_data()`.  `prior` is the `tracks_data` content from before
the call (`[]` on a freshly constructed adapter). -/

/-- The value a `scrape` method returns: the Python methods return either a
boolean success flag or (for the Traxsource adapter) the track list
itself. -/
inductive ScrapeRet (α : Type) where
  | retBool : Bool → ScrapeRet α
  | retList : List α → ScrapeRet α
deriving DecidableEq

/-- Whether a `scrape` return value is a boolean. -/
def isBoolRet {α : Type} : ScrapeRet α → Bool
  | .retBool _ => true
  | .retList _ => false

/-- Outcome of the HTTP fetch + parse stage: an exception, or parsed
per-element data. -/
inductive FetchOutcome (α : Type) where
  | threw : FetchOutcome α
  | got : α → FetchOutcome α

/-- Model of `SoundCloudEDMScraper.scrape`.  Each chart item yields
`some (titleText, artistText)` when both the title and artist elements were
found, `none` otherwise (missing elements, or a per-item exception). -/
def soundcloudScrape (fetch : FetchOutcome (List (Option (Str × Str))))
    (prior : List (Str × Str)) : ScrapeRet (Str × Str) × List (Str × Str) :=
  match fetch with
  | .threw => (.retBool false, prior)
  | .got items =>
    if items.isEmpty then (.retBool false, prior)
    else
      let td := items.filterMap (Option.map fun p => (pyStrip p.1, pyStrip p.2))
      (.retBool (!td.isEmpty), td)

/-- Model of `BillboardTop100Scraper.scrape`.  Each chart row yields
`some (titleText, artistText, positionText?)` when title and artist
elements were found; a missing position element becomes the sentinel
`"N/A"`. -/
def billboardScrape
    (fetch : FetchOutcome (List (Option (Str × Str × Option Str))))
    (prior : List TrackRec) : ScrapeRet TrackRec × List TrackRec :=
  match fetch with
  | .threw => (.retBool false, prior)
  | .got rows =>
    if rows.isEmpty then (.retBool false, prior)
    else
      let td := rows.filterMap (Option.map fun r =>
        TrackRec.mk
          (some (match r.2.2 with | some p => pyStrip p | none => "N/A".toList))
          (pyStrip r.1) (pyStrip r.2.1))
      (.retBool (!td.isEmpty), td)

/-- Outcome of the JSON-LD extraction attempt of the Apple Music
adapter. -/
inductive JsonLd where
  | absent : JsonLd
  | parseError : JsonLd
  | tracks : List Str → JsonLd
deriving DecidableEq

/-- Records produced by the Apple Music JSON-LD loop: one record is
appended per track entry, unconditionally, with the cleaned name as title
and the artist heuristically extracted from the raw name. -/
def appleJsonRecords : JsonLd → List (Str × Str)
  | .tracks names => names.map fun n => (cleanTitle n, extractArtist n)
  | _ => []

/-- The hardcoded fallback list of `AppleMusicEDMScraper.scrape`. -/
def appleFallback : List (Str × Str) :=
  [("Hypnotized".toList, "John Summit".toList),
   ("Forever Yours".toList, "Avicii".toList),
   ("7 Seconds".toList, "Shamiya Battles".toList),
   ("Forever Young".toList, "Various Artists".toList),
   ("Another World".toList, "Various Artists".toList),
   ("Finally".toList, "Various Artists".toList),
   ("Falling Up".toList, "Various Artists".toList),
   ("Go Back".toList, "Various Artists".toList),
   ("I Adore You".toList, "Daecolm".toList),
   ("Right Here All Along".toList, "Hannah Boleyn".toList)]

/-- Model of `AppleMusicEDMScraper.scrape`.  `metaSongs` carries, per
`music:song` meta tag, the processed song name (URL segment, dashes
replaced, title-cased) or `none` when that extraction raised; the artist
lookup of the meta path never matches (the selector string is passed as a
tag name), so those records carry an empty artist.  Records are appended to
the pre-existing `tracks_data`, which the method never clears. -/
def appleScrape (fetch : FetchOutcome (JsonLd × List (Option Str)))
    (prior : List (Str × Str)) : ScrapeRet (Str × Str) × List (Str × Str) :=
  match fetch with
  | .threw => (.retBool false, prior)
  | .got inp =>
    let td1 := prior ++ appleJsonRecords inp.1
    let td2 :=
      if td1.isEmpty then td1 ++ inp.2.filterMap (Option.map fun s => (cleanTitle s, []))
      else td1
    let td3 := if td2.isEmpty then appleFallback else td2
    (.retBool true, td3)

/-- Per-`div.trk-row` extraction outcome of the Traxsource adapter: the
optional title and version element texts and the artist / remixer link
texts. -/
structure TraxElem where
  titleText : Option Str
  versionText : Option Str
  artistTexts : List Str
  remixerTexts : List Str
deriving DecidableEq

/-- Version processing of the Traxsource adapter: strip the element text
and drop a parenthesized duration part. -/
def traxVersionOf : Option Str → Str
  | none => []
  | some v =>
    let vs := pyStrip v
    if vs.contains '(' then pyStrip (vs.takeWhile (· != '(')) else vs

/-- Python `sep.flatten(parts)`. -/
def joinSep (sep : Str) : List Str → Str
  | [] => []
  | [x] => x
  | x :: xs => x ++ sep ++ joinSep sep xs

/-- Title/artist composition of the Traxsource adapter (source lines
97-108): append the version in parentheses when present, then append a
`(<remixers> Remix)` tag when remixers exist and the version does not
already mention a remix; the artist field joins the artist names only. -/
def traxCompose (title version : Str) (artists remixers : List Str) :
    Str × Str :=
  let fullTitle :=
    if version.isEmpty then title
    else title ++ " (".toList ++ version ++ ")".toList
  let fullTitle2 :=
    if !remixers.isEmpty && !(icContains "remix".toList version) then
      fullTitle ++ " (".toList ++ joinSep ", ".toList remixers ++ " Remix)".toList
    else fullTitle
  (fullTitle2, joinSep ", ".toList artists)

/-- Per-element record construction of the Traxsource adapter: records
lacking a (non-blank) title or any artist are discarded. -/
def traxProcess (e : TraxElem) : Option (Str × Str) :=
  let title := match e.titleText with | some t => pyStrip t | none => []
  let version := traxVersionOf e.versionText
  let artists := e.artistTexts.map pyStrip
  let remixers := e.remixerTexts.map pyStrip
  if !title.isEmpty && !artists.isEmpty then
    some (traxCompose title version artists remixers)
  else none

/-- The hardcoded fallback list of `TraxsourceDeepHouseScraper.scrape`
(identical on the zero-extraction path and the network-exception path). -/
def traxFallback : List (Str × Str) :=
  [("Beat Of An Era".toList, "Jimpster".toList),
   ("Whistle Me (Fouk Remix)".toList, "Elisa Elisa".toList),
   ("Grooveline (Extended Mix)".toList, "T.Markakis".toList),
   ("Casey Screams".toList, "Megatronic".toList),
   ("Forbidden Experience".toList, "The Deepshakerz".toList),
   ("Tudo Bem (Original Mix)".toList, "Pablo Fierro".toList),
   ("In The Morning".toList, "Frag Maddin".toList),
   ("Winter Blues (Original Mix)".toList, "Fred Everything".toList),
   ("All Goes Down".toList, "Soledrifter".toList),
   ("Queens Speech (Original Mix)".toList, "Demuir".toList)]

/-- Model of `TraxsourceDeepHouseScraper.scrape`: clears `tracks_data`, extracts
per-element records, substitutes the hardcoded fallback on zero extraction
or on a requests exception, and returns the track list itself (not a
boolean). -/
def traxScrape (fetch : FetchOutcome (List (Option TraxElem)))
    (_prior : List (Str × Str)) : ScrapeRet (Str × Str) × List (Str × Str) :=
  match fetch with
  | .threw => (.retList traxFallback, traxFallback)
  | .got elems =>
    let td := elems.filterMap fun o => o.bind traxProcess
    let td2 := if td.isEmpty then traxFallback else td
    (.retList td2, td2)

/-! ### Concrete fixtures used by counterexamples and witnesses -/

/-- A search API returning an empty candidate list for every query. -/
def apiEmpty : Str → Nat → ApiResult := fun _ _ => ApiResult.ok []

/-- A search API resolving every query to one candidate. -/
def apiOne : Str → Nat → ApiResult :=
  fun _ _ => ApiResult.ok [⟨"spotify:track:1".toList, "Song A".toList, ["Artist X".toList]⟩]

/-- A sample 2-tuple track record. -/
def recA : TrackRec := ⟨none, "Song A".toList, "Artist X".toList⟩

/-- A search API returning one candidate whose artist array is empty. -/
def apiNoArtists : Str → Nat → ApiResult :=
  fun _ _ => ApiResult.ok [⟨"u1".toList, "n1".toList, []⟩]

/-- Generic fact: a `filterMap` over a list on which the function always
yields `none` produces nothing. -/
theorem filterMap_all_none {α β : Type} (f : α → Option β) :
    ∀ l : List α, (∀ a ∈ l, f a = none) → l.filterMap f = []
  | [], _ => rfl
  | a :: l, h => by
    simp only [List.filterMap_cons, h a (List.mem_cons_self a l)]
    exact filterMap_all_none f l fun b hb => h b (List.mem_cons_of_mem a hb)

/-! ## Helper lemmas -/

theorem collectUris_eq_filterMap (resolve : Str → Str → Option Str) :
    ∀ l : List TrackRec,
      collectUris resolve l = l.filterMap fun r => resolve r.title r.artist
  | [] => rfl
  | r :: rs => by
    cases h : resolve r.title r.artist <;>
      simp [collectUris, h, List.filterMap_cons, collectUris_eq_filterMap resolve rs]

theorem chunksAux_join {α : Type} :
    ∀ (l acc : List α) (n : Nat), (chunksAux l acc n).flatten = acc.reverse ++ l
  | [], acc, n => by cases acc <;> simp [chunksAux]
  | x :: xs, acc, 0 => by
    simp [chunksAux, chunksAux_join xs [x] 99]
  | x :: xs, acc, r + 1 => by
    simp [chunksAux, chunksAux_join xs (x :: acc) r]

theorem chunksAux_mem_le {α : Type} :
    ∀ (l acc : List α) (n : Nat), acc.length + n = 100 →
      ∀ b ∈ chunksAux l acc n, b.length ≤ 100
  | [], acc, n, hinv, b, hb => by
    cases acc with
    | nil => simp [chunksAux] at hb
    | cons a as =>
      simp [chunksAux] at hb
      have hb2 : b.length = as.length + 1 := by simp [hb]
      simp only [List.length_cons] at hinv
      omega
  | x :: xs, acc, 0, hinv, b, hb => by
    simp only [chunksAux, List.mem_cons] at hb
    rcases hb with hb | hb
    · have hb2 : b.length = acc.length := by simp [hb]
      omega
    · exact chunksAux_mem_le xs [x] 99 (by simp) b hb
  | x :: xs, acc, r + 1, hinv, b, hb => by
    simp only [chunksAux] at hb
    exact chunksAux_mem_le xs (x :: acc) r (by simp at hinv ⊢; omega) b hb

theorem chunksAux_length {α : Type} :
    ∀ (l acc : List α) (n : Nat), acc.length + n = 100 → ¬(l = [] ∧ acc = []) →
      (chunksAux l acc n).length = (acc.length + l.length + 99) / 100
  | [], acc, n, hinv, hne => by
    cases acc with
    | nil => exact absurd ⟨rfl, rfl⟩ hne
    | cons a as =>
      simp only [chunksAux, List.isEmpty_cons, List.length_cons,
        List.length_nil, Bool.false_eq_true, if_false, List.length_singleton]
      simp only [List.length_cons] at hinv
      omega
  | x :: xs, acc, 0, hinv, _ => by
    have ih := chunksAux_length xs [x] 99 (by simp) (by simp)
    simp only [chunksAux, List.length_cons, List.length_nil,
      List.length_singleton] at ih ⊢
    omega
  | x :: xs, acc, r + 1, hinv, _ => by
    have ih := chunksAux_length xs (x :: acc) r
      (by simp only [List.length_cons]; omega) (by simp)
    simp only [chunksAux, List.length_cons] at ih ⊢
    omega

theorem chunks100_join {α : Type} (l : List α) : (chunks100 l).flatten = l := by
  simpa using chunksAux_join l [] 100

theorem chunks100_mem_le {α : Type} (l : List α) :
    ∀ b ∈ chunks100 l, b.length ≤ 100 :=
  chunksAux_mem_le l [] 100 (by simp)

theorem chunks100_length {α : Type} (l : List α) (h : l ≠ []) :
    (chunks100 l).length = (l.length + 99) / 100 := by
  have := chunksAux_length l [] 100 (by simp) (by simp [h])
  simpa [chunks100] using this

theorem traxCompose_fst_ne_nil (title version : Str)
    (artists remixers : List Str) (ht : title ≠ []) :
    (traxCompose title version artists remixers).1 ≠ [] := by
  simp only [traxCompose]
  split <;> split <;> simp [List.append_eq_nil, ht]

/-! ## Claim theorems: Playlist Assembler -/

theorem searchSong_clientKO (api : Str → Nat → ApiResult) (t a : Str) :
    (searchSong false api t a).1 = none := by
  simp [searchSong]

theorem createPlaylist_nil (api : Str → Nat → ApiResult)
    (clientOk createOk : Bool) (addFailAt : Option Nat) (lim : Nat) :
    createPlaylist api clientOk createOk addFailAt [] lim =
      (none, ⟨[], [], 0, []⟩) := by
  simp [createPlaylist]

theorem createPlaylist_noClient (api : Str → Nat → ApiResult)
    (createOk : Bool) (addFailAt : Option Nat) (tracksData : List TrackRec)
    (lim : Nat) (h1 : tracksData.isEmpty = false) :
    createPlaylist api false createOk addFailAt tracksData lim =
      (none, ⟨[], [], 0, []⟩) := by
  simp [createPlaylist, h1]

theorem createPlaylist_noneResolved (api : Str → Nat → ApiResult)
    (createOk : Bool) (addFailAt : Option Nat) (tracksData : List TrackRec)
    (lim : Nat) (h1 : tracksData.isEmpty = false)
    (hue : (collectUris (fun t a => (searchSong true api t a).1)
      (tracksData.take lim)).isEmpty = true) :
    createPlaylist api true createOk addFailAt tracksData lim =
      (none, ⟨(tracksData.take lim).map (fun r => (r.title, r.artist)),
        collectUris (fun t a => (searchSong true api t a).1)
          (tracksData.take lim), 0, []⟩) := by
  simp [createPlaylist, h1, hue]

theorem createPlaylist_branch (api : Str → Nat → ApiResult) (createOk : Bool)
    (addFailAt : Option Nat) (tracksData : List TrackRec) (lim : Nat)
    (h1 : tracksData.isEmpty = false)
    (hue : (collectUris (fun t a => (searchSong true api t a).1)
      (tracksData.take lim)).isEmpty = false) :
    ∃ (ret : Option Unit) (ac : List (List Str)),
      createPlaylist api true createOk addFailAt tracksData lim =
        (ret, ⟨(tracksData.take lim).map (fun r => (r.title, r.artist)),
          collectUris (fun t a => (searchSong true api t a).1)
            (tracksData.take lim), 1, ac⟩) ∧
      (createOk = true → addFailAt = none →
        ac = chunks100 (collectUris (fun t a => (searchSong true api t a).1)
          (tracksData.take lim))) := by
  cases createOk with
  | false =>
    refine ⟨none, [], by simp [createPlaylist, h1, hue], by simp⟩
  | true =>
    cases addFailAt with
    | none =>
      refine ⟨some (), _, by simp [createPlaylist, h1, hue], fun _ _ => rfl⟩
    | some k =>
      by_cases hk : k < (chunks100 (collectUris
          (fun t a => (searchSong true api t a).1) (tracksData.take lim))).length
      · refine ⟨none, (chunks100 (collectUris
            (fun t a => (searchSong true api t a).1)
            (tracksData.take lim))).take (k + 1),
          by simp [createPlaylist, h1, hue, hk], by simp⟩
      · refine ⟨some (), chunks100 (collectUris
            (fun t a => (searchSong true api t a).1) (tracksData.take lim)),
          by simp [createPlaylist, h1, hue, hk], by simp⟩

/-- C1: for every input list of raw track records and every limit,
`create_playlist` attempts resolution for at most the first `limit` records
in their original order (the searched pairs form a prefix of the first
`limit` records, of length at most `limit`), and the URIs collected for
adding are exactly the successfully resolved ones of those records, in the
same relative order, with unresolved records omitted. -/
theorem claim_C1 (api : Str → Nat → ApiResult) (clientOk createOk : Bool)
    (addFailAt : Option Nat) (tracksData : List TrackRec) (lim : Nat) :
    (∃ rest, (tracksData.take lim).map (fun r => (r.title, r.artist)) =
      (createPlaylist api clientOk createOk addFailAt tracksData lim).2.searched
        ++ rest) ∧
    (createPlaylist api clientOk createOk addFailAt
        tracksData lim).2.searched.length ≤ lim ∧
    (createPlaylist api clientOk createOk addFailAt tracksData lim).2.collected =
      (tracksData.take lim).filterMap
        (fun r => (searchSong clientOk api r.title r.artist).1) := by
  by_cases h1 : tracksData.isEmpty = true
  · have he : tracksData = [] := by simpa using h1
    subst he
    simp [createPlaylist_nil]
  · have h1f : tracksData.isEmpty = false := by simpa using h1
    cases clientOk with
    | false =>
      rw [createPlaylist_noClient api createOk addFailAt tracksData lim h1f]
      refine ⟨⟨_, (List.nil_append _).symm⟩, Nat.zero_le _, ?_⟩
      show ([] : List Str) = _
      induction tracksData.take lim with
      | nil => simp
      | cons a l ih => simp [List.filterMap_cons, searchSong_clientKO, ← ih]
    | true =>
      have hsc :
          ∀ p : Option Unit × AsmTrace,
            p.2.searched =
              (tracksData.take lim).map (fun r => (r.title, r.artist)) →
            p.2.collected = collectUris (fun t a => (searchSong true api t a).1)
              (tracksData.take lim) →
            (∃ rest, (tracksData.take lim).map (fun r => (r.title, r.artist)) =
              p.2.searched ++ rest) ∧
            p.2.searched.length ≤ lim ∧
            p.2.collected = (tracksData.take lim).filterMap
              (fun r => (searchSong true api r.title r.artist).1) := by
        intro p hs hc
        refine ⟨⟨[], by rw [hs, List.append_nil]⟩, ?_, ?_⟩
        · rw [hs]
          simp only [List.length_map, List.length_take]
          exact Nat.min_le_left _ _
        · rw [hc, collectUris_eq_filterMap]
      cases hU : (collectUris (fun t a => (searchSong true api t a).1)
          (tracksData.take lim)).isEmpty with
      | true =>
        rw [createPlaylist_noneResolved api createOk addFailAt
          tracksData lim h1f hU]
        exact hsc _ rfl rfl
      | false =>
        obtain ⟨ret, ac, heq, -⟩ :=
          createPlaylist_branch api createOk addFailAt tracksData lim h1f hU
        rw [heq]
        exact hsc _ rfl rfl

/-- C3: `create_playlist` returns `None` and issues no playlist-creation
call whenever the resolved-URI sequence is empty (in particular for an
empty input list); a playlist is created only when at least one record
resolved. -/
theorem claim_C3 (api : Str → Nat → ApiResult) (clientOk createOk : Bool)
    (addFailAt : Option Nat) (tracksData : List TrackRec) (lim : Nat) :
    ((createPlaylist api clientOk createOk addFailAt tracksData lim).2.collected
        = [] →
      (createPlaylist api clientOk createOk addFailAt tracksData lim).1 = none ∧
      (createPlaylist api clientOk createOk addFailAt
        tracksData lim).2.createCalls = 0) ∧
    (0 < (createPlaylist api clientOk createOk addFailAt
        tracksData lim).2.createCalls →
      (createPlaylist api clientOk createOk addFailAt tracksData lim).2.collected
        ≠ []) := by
  by_cases h1 : tracksData.isEmpty = true
  · have he : tracksData = [] := by simpa using h1
    subst he
    simp [createPlaylist_nil]
  · have h1f : tracksData.isEmpty = false := by simpa using h1
    cases clientOk with
    | false =>
      rw [createPlaylist_noClient api createOk addFailAt tracksData lim h1f]
      exact ⟨fun _ => ⟨rfl, rfl⟩, by simp⟩
    | true =>
      cases hU : (collectUris (fun t a => (searchSong true api t a).1)
          (tracksData.take lim)).isEmpty with
      | true =>
        rw [createPlaylist_noneResolved api createOk addFailAt
          tracksData lim h1f hU]
        exact ⟨fun _ => ⟨rfl, rfl⟩, by simp⟩
      | false =>
        have hu2 : collectUris (fun t a => (searchSong true api t a).1)
            (tracksData.take lim) ≠ [] := fun hc => by simp [hc] at hU
        obtain ⟨ret, ac, heq, -⟩ :=
          createPlaylist_branch api createOk addFailAt tracksData lim h1f hU
        rw [heq]
        exact ⟨fun hc => absurd hc hu2, fun _ => hu2⟩

/-- Witness for C3 at a concrete input: one record that the search API
fails to resolve — the result is `None` and no create call is issued. -/
theorem claim_C3_witness :
    (createPlaylist apiEmpty true true none [recA] 30).2.collected = [] ∧
    ((createPlaylist apiEmpty true true none [recA] 30).1 = none ∧
      (createPlaylist apiEmpty true true none [recA] 30).2.createCalls = 0) :=
  ⟨by decide, (claim_C3 apiEmpty true true none [recA] 30).1 (by decide)⟩

/-- C4: when every external call succeeds, a non-empty resolved-URI
sequence of length N is added in exactly one add-call per 100 URIs
(`(N + 99) / 100` calls), each of at most 100 items, whose concatenation in
call order is the full resolved sequence. -/
theorem claim_C4 (api : Str → Nat → ApiResult) (clientOk : Bool)
    (tracksData : List TrackRec) (lim : Nat)
    (h : (createPlaylist api clientOk true none tracksData lim).2.collected
      ≠ []) :
    (createPlaylist api clientOk true none tracksData lim).2.addCalls.length =
      ((createPlaylist api clientOk true none
        tracksData lim).2.collected.length + 99) / 100 ∧
    (∀ b ∈ (createPlaylist api clientOk true none tracksData lim).2.addCalls,
      b.length ≤ 100) ∧
    (createPlaylist api clientOk true none tracksData lim).2.addCalls.flatten =
      (createPlaylist api clientOk true none tracksData lim).2.collected := by
  by_cases h1 : tracksData.isEmpty = true
  · have he : tracksData = [] := by simpa using h1
    subst he
    rw [createPlaylist_nil] at h
    exact absurd rfl h
  · have h1f : tracksData.isEmpty = false := by simpa using h1
    cases clientOk with
    | false =>
      rw [createPlaylist_noClient api true none tracksData lim h1f] at h
      exact absurd rfl h
    | true =>
      cases hU : (collectUris (fun t a => (searchSong true api t a).1)
          (tracksData.take lim)).isEmpty with
      | true =>
        rw [createPlaylist_noneResolved api true none
          tracksData lim h1f hU] at h
        exact absurd (by simpa using hU) h
      | false =>
        have hu2 : collectUris (fun t a => (searchSong true api t a).1)
            (tracksData.take lim) ≠ [] := fun hc => by simp [hc] at hU
        obtain ⟨ret, ac, heq, hspec⟩ :=
          createPlaylist_branch api true none tracksData lim h1f hU
        have hac := hspec rfl rfl
        subst hac
        rw [heq]
        exact ⟨chunks100_length _ hu2, chunks100_mem_le _, chunks100_join _⟩

/-- Witness for C4 at a concrete input: one record resolved by the API —
a single add-call carrying the single URI. -/
theorem claim_C4_witness :
    (createPlaylist apiOne true true none [recA] 30).2.collected ≠ [] ∧
    ((createPlaylist apiOne true true none [recA] 30).2.addCalls.length =
      ((createPlaylist apiOne true true none
        [recA] 30).2.collected.length + 99) / 100 ∧
    (∀ b ∈ (createPlaylist apiOne true true none [recA] 30).2.addCalls,
      b.length ≤ 100) ∧
    (createPlaylist apiOne true true none [recA] 30).2.addCalls.flatten =
      (createPlaylist apiOne true true none [recA] 30).2.collected) :=
  ⟨by decide, claim_C4 apiOne true [recA] 30 (by decide)⟩

/-! ## Claim theorems: chart source adapters -/

/-- C5 counterexample: the claim says every adapter returns a boolean
success flag from `scrape`; the Traxsource adapter instead returns its
track-data list (source line 177) — here, on a network exception, the
10-item fallback list rather than `False`. -/
theorem claim_C5_counterexample :
    isBoolRet (traxScrape FetchOutcome.threw []).1 = false ∧
    (traxScrape FetchOutcome.threw []).1 = ScrapeRet.retList traxFallback :=
  ⟨rfl, rfl⟩

/-- C5 (amended): the SoundCloud, Billboard and Apple Music adapters
return a boolean from `scrape`; the Traxsource adapter returns its track
list instead.  For the two adapters with no fallback (SoundCloud,
Billboard), a fetch exception or zero parsable records yields a `False`
return and, on a fresh adapter, empty track data. -/
theorem claim_C5 :
    (∀ (fetch : FetchOutcome (List (Option (Str × Str))))
        (prior : List (Str × Str)),
      isBoolRet (soundcloudScrape fetch prior).1 = true) ∧
    (∀ (fetch : FetchOutcome (List (Option (Str × Str × Option Str))))
        (prior : List TrackRec),
      isBoolRet (billboardScrape fetch prior).1 = true) ∧
    (∀ (fetch : FetchOutcome (JsonLd × List (Option Str)))
        (prior : List (Str × Str)),
      isBoolRet (appleScrape fetch prior).1 = true) ∧
    (∀ (fetch : FetchOutcome (List (Option TraxElem)))
        (prior : List (Str × Str)),
      isBoolRet (traxScrape fetch prior).1 = false) ∧
    (soundcloudScrape FetchOutcome.threw [] = (ScrapeRet.retBool false, []) ∧
      ∀ items : List (Option (Str × Str)), (∀ o ∈ items, o = none) →
        soundcloudScrape (FetchOutcome.got items) [] =
          (ScrapeRet.retBool false, [])) ∧
    (billboardScrape FetchOutcome.threw [] = (ScrapeRet.retBool false, []) ∧
      ∀ rows : List (Option (Str × Str × Option Str)), (∀ o ∈ rows, o = none) →
        billboardScrape (FetchOutcome.got rows) [] =
          (ScrapeRet.retBool false, [])) := by
  refine ⟨?_, ?_, ?_, ?_, ⟨rfl, ?_⟩, ⟨rfl, ?_⟩⟩
  · intro fetch prior
    cases fetch with
    | threw => rfl
    | got items =>
      simp only [soundcloudScrape]
      split <;> rfl
  · intro fetch prior
    cases fetch with
    | threw => rfl
    | got rows =>
      simp only [billboardScrape]
      split <;> rfl
  · intro fetch prior
    cases fetch with
    | threw => rfl
    | got inp => rfl
  · intro fetch prior
    cases fetch with
    | threw => rfl
    | got elems => rfl
  · intro items h
    have htd : items.filterMap
        (Option.map fun p : Str × Str => (pyStrip p.1, pyStrip p.2)) = [] :=
      filterMap_all_none _ items fun o ho => by rw [h o ho]; rfl
    simp only [soundcloudScrape, htd]
    split <;> rfl
  · intro rows h
    have htd : rows.filterMap
        (Option.map fun r : Str × Str × Option Str =>
          TrackRec.mk
            (some (match r.2.2 with | some p => pyStrip p | none => "N/A".toList))
            (pyStrip r.1) (pyStrip r.2.1)) = [] :=
      filterMap_all_none _ rows fun o ho => by rw [h o ho]; rfl
    simp only [billboardScrape, htd]
    split <;> rfl

/-- Witness for C5 at a concrete input: a SoundCloud fetch whose single
chart item had no recognizable title/artist elements — `scrape` returns
`False` and the track data is empty. -/
theorem claim_C5_witness :
    (∀ o ∈ ([none] : List (Option (Str × Str))), o = none) ∧
    soundcloudScrape (FetchOutcome.got [none]) [] =
      (ScrapeRet.retBool false, []) :=
  ⟨by decide, claim_C5.2.2.2.2.1.2 [none] (by decide)⟩

/-- C6 counterexample: the non-empty-title invariant fails in three
adapters.  The Apple Music JSON-LD loop appends a record for every track
entry without checking the title, so a track whose name is the empty
string is emitted as a record with a blank title (and blank artist); the
SoundCloud and Billboard extraction loops check only that the title and
artist ELEMENTS exist, so an element whose text strips to the empty string
is emitted as a record with a blank title as well. -/
theorem claim_C6_counterexample :
    (appleScrape (FetchOutcome.got (JsonLd.tracks [[]], [])) []).2 =
      [([], [])] ∧
    (soundcloudScrape (FetchOutcome.got [some (" ".toList, "A".toList)])
        []).2 = [([], "A".toList)] ∧
    (billboardScrape (FetchOutcome.got [some (" ".toList, "A".toList, none)])
        []).2 = [⟨some "N/A".toList, [], "A".toList⟩] ∧
    ((appleScrape (FetchOutcome.got (JsonLd.tracks [[]], [])) []).2.all
      fun r => !r.1.isEmpty) = false := by
  decide

/-- C6 (amended): only the Traxsource adapter upholds the invariant — it
discards records whose title element is missing or strips to blank, or
which have no artist elements, and every record it emits has a non-empty
title (both fallback paths included).  The SoundCloud and Billboard
adapters discard exactly the records whose title or artist elements are
missing and emit every remaining record with stripped element texts, so a
text that strips to the empty string still yields a blank-titled record
(see the counterexample); the Apple Music JSON-LD path appends one record
per track entry unconditionally. -/
theorem claim_C6 :
    (∀ (fetch : FetchOutcome (List (Option TraxElem)))
        (prior : List (Str × Str)),
      ∀ r ∈ (traxScrape fetch prior).2, r.1 ≠ []) ∧
    (∀ e : TraxElem,
      (match e.titleText with | some t => pyStrip t | none => ([] : Str))
        = [] → traxProcess e = none) ∧
    (∀ e : TraxElem, e.artistTexts = [] → traxProcess e = none) ∧
    (∀ items : List (Option (Str × Str)),
      (soundcloudScrape (FetchOutcome.got items) []).2 =
        (items.filterMap id).map fun p => (pyStrip p.1, pyStrip p.2)) ∧
    (∀ rows : List (Option (Str × Str × Option Str)),
      (billboardScrape (FetchOutcome.got rows) []).2 =
        (rows.filterMap id).map fun r =>
          TrackRec.mk
            (some (match r.2.2 with
              | some p => pyStrip p
              | none => "N/A".toList))
            (pyStrip r.1) (pyStrip r.2.1)) ∧
    (∀ (names : List Str) (meta : List (Option Str)), names ≠ [] →
      (appleScrape (FetchOutcome.got (JsonLd.tracks names, meta)) []).2 =
        names.map fun n => (cleanTitle n, extractArtist n)) := by
  refine ⟨?_, ?_, ?_, ?_, ?_, ?_⟩
  · have hfb : ∀ r ∈ traxFallback, r.1 ≠ ([] : Str) := by decide
    intro fetch prior r hr
    cases fetch with
    | threw => exact hfb r hr
    | got elems =>
      simp only [traxScrape] at hr
      by_cases hemp : (elems.filterMap fun o => o.bind traxProcess).isEmpty = true
      · rw [if_pos hemp] at hr
        exact hfb r hr
      · rw [if_neg hemp] at hr
        obtain ⟨o, -, ho⟩ := List.mem_filterMap.1 hr
        obtain ⟨e, -, he⟩ := Option.bind_eq_some.1 ho
        revert he
        simp only [traxProcess]
        split
        · rename_i hcond
          intro he
          obtain ⟨ht, -⟩ := Bool.and_eq_true_iff.1 hcond
          have ht2 : (match e.titleText with
              | some t => pyStrip t | none => []) ≠ [] := by
            intro hnil
            rw [hnil] at ht
            exact absurd ht (by decide)
          injection he with he2
          rw [← he2]
          exact traxCompose_fst_ne_nil _ _ _ _ ht2
        · intro he
          exact absurd he (by simp)
  · intro e he
    simp [traxProcess, he]
  · intro e he
    simp [traxProcess, he]
  · intro items
    simp only [soundcloudScrape]
    split
    · rename_i hemp
      have : items = [] := by simpa using hemp
      subst this
      rfl
    · simp [List.map_filterMap]
  · intro rows
    simp only [billboardScrape]
    split
    · rename_i hemp
      have : rows = [] := by simpa using hemp
      subst this
      rfl
    · simp [List.map_filterMap]
  · intro names meta h
    cases names with
    | nil => exact absurd rfl h
    | cons n ns =>
      simp [appleScrape, appleJsonRecords]

/-- Witness for C6 at concrete inputs: one Apple Music JSON-LD entry named
"A (Radio Edit)" yields exactly one record, with the cleaned title and the
heuristically extracted (here empty) artist. -/
theorem claim_C6_witness :
    (["A (Radio Edit)".toList] ≠ ([] : List Str)) ∧
    (appleScrape (FetchOutcome.got
        (JsonLd.tracks ["A (Radio Edit)".toList], [])) []).2 =
      ["A (Radio Edit)".toList].map (fun n => (cleanTitle n, extractArtist n)) :=
  ⟨by decide, claim_C6.2.2.2.2.2 ["A (Radio Edit)".toList] [] (by decide)⟩

/-- C7: both fallback-equipped adapters substitute their documented fixed
10-item hardcoded list whenever extraction yields zero records, and the
Traxsource adapter also on a network exception. -/
theorem claim_C7 :
    appleFallback.length = 10 ∧ traxFallback.length = 10 ∧
    (∀ (jl : JsonLd) (meta : List (Option Str)),
      appleJsonRecords jl = [] → (∀ o ∈ meta, o = none) →
      (appleScrape (FetchOutcome.got (jl, meta)) []).2 = appleFallback) ∧
    (∀ elems : List (Option TraxElem),
      (∀ o ∈ elems, o.bind traxProcess = none) →
      (traxScrape (FetchOutcome.got elems) []).2 = traxFallback) ∧
    (∀ prior, (traxScrape FetchOutcome.threw prior).2 = traxFallback) := by
  refine ⟨rfl, rfl, ?_, ?_, fun _ => rfl⟩
  · intro jl meta hjl hmeta
    have hm : meta.filterMap (Option.map fun s => (cleanTitle s, ([] : Str)))
        = [] :=
      filterMap_all_none _ meta fun o ho => by rw [hmeta o ho]; rfl
    simp [appleScrape, hjl, hm]
  · intro elems h
    have htd : elems.filterMap (fun o => o.bind traxProcess) = [] :=
      filterMap_all_none _ elems h
    simp [traxScrape, htd]

/-- Witness for C7 at a concrete input: an Apple Music run where the
JSON-LD block is absent and the single meta tag failed extraction — the
track data is exactly the 10-item substitute list. -/
theorem claim_C7_witness :
    appleJsonRecords JsonLd.absent = [] ∧
    (∀ o ∈ ([none] : List (Option Str)), o = none) ∧
    (appleScrape (FetchOutcome.got (JsonLd.absent, [none])) []).2 =
      appleFallback :=
  ⟨rfl, by decide, claim_C7.2.2.1 JsonLd.absent [none] rfl (by decide)⟩

/-! ## Claim theorems: Track Resolver and title composition -/

/-- C8 counterexample: the claim says `search_song` returns the first
candidate identifier whenever any candidate is returned; but when the
first candidate has an empty artist array, the result-logging line
(`items[0]['artists'][0]['name']`) raises, the handler catches it, and the
function returns `None` instead of the URI. -/
theorem claim_C8_counterexample :
    apiNoArtists (buildQuery "T".toList "A".toList) 1 =
      ApiResult.ok [⟨"u1".toList, "n1".toList, []⟩] ∧
    (searchSong true apiNoArtists "T".toList "A".toList).1 = none :=
  ⟨rfl, rfl⟩

/-- C8 (amended): `search_song` builds the query `track:<title>`, appending
`artist:<artist>` exactly when the artist is non-empty; when a client
exists it issues exactly one search call with result cap 1; a transport
error, an empty candidate list, or a first candidate with an empty artist
array (which trips the logging line) all yield the unresolved marker
`None`; a first candidate with a non-empty artist array resolves to its
identifier. -/
theorem claim_C8 (api : Str → Nat → ApiResult) (title artist : Str) :
    (searchSong false api title artist = (none, [])) ∧
    ((searchSong true api title artist).2 =
      [⟨buildQuery title artist, 1⟩]) ∧
    (api (buildQuery title artist) 1 = ApiResult.threw →
      (searchSong true api title artist).1 = none) ∧
    (api (buildQuery title artist) 1 = ApiResult.ok [] →
      (searchSong true api title artist).1 = none) ∧
    (∀ c rest, api (buildQuery title artist) 1 = ApiResult.ok (c :: rest) →
      c.artistNames = [] → (searchSong true api title artist).1 = none) ∧
    (∀ c rest, api (buildQuery title artist) 1 = ApiResult.ok (c :: rest) →
      c.artistNames ≠ [] →
      (searchSong true api title artist).1 = some c.uri) ∧
    (artist = [] → buildQuery title artist = "track:".toList ++ title) ∧
    (artist ≠ [] → buildQuery title artist =
      "track:".toList ++ title ++ " artist:".toList ++ artist) := by
  refine ⟨rfl, ?_, ?_, ?_, ?_, ?_, ?_, ?_⟩
  · simp only [searchSong, Bool.not_true, Bool.false_eq_true, if_false]
    cases h : api (buildQuery title artist) 1 with
    | threw => rfl
    | ok items =>
      cases items with
      | nil => rfl
      | cons c rest =>
        cases hc : c.artistNames with
        | nil => simp [hc]
        | cons a l => simp [hc]
  · intro h
    simp [searchSong, h]
  · intro h
    simp [searchSong, h]
  · intro c rest h hc
    simp [searchSong, h, hc]
  · intro c rest h hc
    cases ha : c.artistNames with
    | nil => exact absurd ha hc
    | cons a l => simp [searchSong, h, ha]
  · intro h
    subst h
    simp [buildQuery]
  · intro h
    cases artist with
    | nil => exact absurd rfl h
    | cons a l => simp [buildQuery, List.append_assoc]

/-- Witness for C8 at a concrete input: the one-candidate API resolves a
query to that candidate URI. -/
theorem claim_C8_witness :
    apiOne (buildQuery "T".toList "A".toList) 1 = ApiResult.ok
      [⟨"spotify:track:1".toList, "Song A".toList, ["Artist X".toList]⟩] ∧
    (searchSong true apiOne "T".toList "A".toList).1 =
      some "spotify:track:1".toList :=
  ⟨rfl, (claim_C8 apiOne "T".toList "A".toList).2.2.2.2.2.1
    ⟨"spotify:track:1".toList, "Song A".toList, ["Artist X".toList]⟩ []
    rfl (by decide)⟩

/-- C9: the Traxsource composed title is the raw title alone when there
is no version tag, else the title with the version parenthesized; a
`(<remixers> Remix)` tag is appended exactly when remixers exist and
`remix` does not already occur in the (lowercased) version; and the artist
field is the comma-joined artist list, with remixers never entering it. -/
theorem claim_C9 (title version : Str) (artists remixers : List Str) :
    ((traxCompose title version artists remixers).2 =
      joinSep ", ".toList artists) ∧
    (version = [] → remixers = [] →
      (traxCompose title version artists remixers).1 = title) ∧
    (version ≠ [] → remixers = [] →
      (traxCompose title version artists remixers).1 =
        title ++ " (".toList ++ version ++ ")".toList) ∧
    (remixers ≠ [] → icContains "remix".toList version = false →
      (traxCompose title version artists remixers).1 =
        (if version = [] then title
         else title ++ " (".toList ++ version ++ ")".toList) ++
          " (".toList ++ joinSep ", ".toList remixers ++ " Remix)".toList) ∧
    (remixers ≠ [] → icContains "remix".toList version = true →
      (traxCompose title version artists remixers).1 =
        (if version = [] then title
         else title ++ " (".toList ++ version ++ ")".toList)) := by
  refine ⟨?_, ?_, ?_, ?_, ?_⟩
  · simp [traxCompose]
  · intro hv hr
    subst hv; subst hr
    rfl
  · intro hv hr
    subst hr
    cases version with
    | nil => exact absurd rfl hv
    | cons c cs => rfl
  · intro hr hic
    cases remixers with
    | nil => exact absurd rfl hr
    | cons r rs =>
      cases version with
      | nil =>
        have hic2 : icContains [Char.ofNat 114, Char.ofNat 101, Char.ofNat 109,
            Char.ofNat 105, Char.ofNat 120] ([] : Str) = false := rfl
        simp [traxCompose, hic2]
      | cons c cs =>
        have hic2 : icContains [Char.ofNat 114, Char.ofNat 101, Char.ofNat 109,
            Char.ofNat 105, Char.ofNat 120] (c :: cs) = false := hic
        simp [traxCompose, hic2]
  · intro hr hic
    cases remixers with
    | nil => exact absurd rfl hr
    | cons r rs =>
      cases version with
      | nil => exact absurd hic (by decide)
      | cons c cs =>
        have hic2 : icContains [Char.ofNat 114, Char.ofNat 101, Char.ofNat 109,
            Char.ofNat 105, Char.ofNat 120] (c :: cs) = true := hic
        simp [traxCompose, hic2]

/-- Witness for C9 at concrete inputs: a track with a version tag, one
remixer not mentioned in the version, and two artists. -/
theorem claim_C9_witness :
    (["R1".toList] ≠ ([] : List Str)) ∧
    icContains "remix".toList "Extended Mix".toList = false ∧
    (traxCompose "Song".toList "Extended Mix".toList
        ["A1".toList, "A2".toList] ["R1".toList]).1 =
      (if "Extended Mix".toList = ([] : Str) then "Song".toList
       else "Song".toList ++ " (".toList ++ "Extended Mix".toList
         ++ ")".toList) ++
        " (".toList ++ joinSep ", ".toList ["R1".toList] ++ " Remix)".toList :=
  ⟨by decide, by decide,
    (claim_C9 "Song".toList "Extended Mix".toList
      ["A1".toList, "A2".toList] ["R1".toList]).2.2.2.1 (by decide) (by decide)⟩

/-- C10: the artist-extraction heuristic returns the first matching
pattern's result (shown for the remix pattern, which has the highest
priority), yields the empty string when no pattern matches (a valid
no-artist result), and satisfies the documented concrete examples. -/
theorem claim_C10 :
    extractArtist "Song (DJ Foo Remix)".toList = "DJ Foo".toList ∧
    extractArtist "Song - Bar".toList = "Bar".toList ∧
    extractArtist "Plain Title".toList = "".toList ∧
    (∀ t g, searchRemixGroup t = some g → extractArtist t = pyStrip g) ∧
    (∀ t, searchRemixGroup t = none → searchFeat t = none →
      subAt? " - ".toList t = none → subAt? aposS t = none →
      searchAmpIdx t 0 = none → extractArtist t = []) := by
  refine ⟨by decide, by decide, by decide, ?_, ?_⟩
  · intro t g h
    simp [extractArtist, h]
  · intro t h1 h2 h3 h4 h5
    have h3b : subAt? [Char.ofNat 32, Char.ofNat 45, Char.ofNat 32] t = none := h3
    simp [extractArtist, h1, h2, part1, part0, h3, h3b, h4, h5]

/-- Witness for C10 at a concrete input: the remix pattern matches
"X (DJ Q Remix)" and its stripped group is returned. -/
theorem claim_C10_witness :
    searchRemixGroup "X (DJ Q Remix)".toList = some "DJ Q".toList ∧
    extractArtist "X (DJ Q Remix)".toList = pyStrip "DJ Q".toList :=
  ⟨by decide, claim_C10.2.2.2.1 "X (DJ Q Remix)".toList "DJ Q".toList
    (by decide)⟩

/-! ## Claim C2: idempotence analysis of the title normalizer -/

theorem not_mem_of_sublist {l m : Str} {v : Char} (h : List.Sublist l m) (hv : v ∉ m) :
    v ∉ l :=
  fun hl => hv (h.subset hl)

theorem contains_false_of_not_mem {l : Str} {ch : Char} (h : ch ∉ l) :
    l.contains ch = false := by
  induction l with
  | nil => rfl
  | cons a as ih =>
    have h1 : ch ≠ a := fun he => h (he ▸ List.mem_cons_self a as)
    have h2 : ch ∉ as := fun hm => h (List.mem_cons_of_mem a hm)
    simp only [List.contains_cons, ih h2, Bool.or_false, beq_eq_false_iff_ne]
    exact h1

theorem icStartsWith_append (pat : Str) :
    ∀ l r : Str, icStartsWith pat l = true → icStartsWith pat (l ++ r) = true := by
  induction pat with
  | nil => intro l r _; rfl
  | cons p ps ih =>
    intro l r h
    cases l with
    | nil => exact absurd h (by simp [icStartsWith])
    | cons c cs =>
      simp only [icStartsWith, Bool.and_eq_true] at h
      simp only [List.cons_append, icStartsWith, Bool.and_eq_true]
      exact ⟨h.1, ih cs r h.2⟩

theorem icContains_append_left (pat : Str) (hp : pat ≠ []) :
    ∀ l r : Str, icContains pat l = true → icContains pat (l ++ r) = true := by
  intro l
  induction l with
  | nil =>
    intro r h
    cases pat with
    | nil => exact absurd rfl hp
    | cons p ps => exact absurd h (by simp [icContains, icStartsWith])
  | cons c cs ih =>
    intro r h
    simp only [icContains, Bool.or_eq_true] at h
    simp only [List.cons_append, icContains, Bool.or_eq_true]
    rcases h with h | h
    · exact Or.inl (icStartsWith_append pat (c :: cs) r h)
    · exact Or.inr (ih r h)

theorem icContains_append_right (pat : Str) :
    ∀ l r : Str, icContains pat r = true → icContains pat (l ++ r) = true := by
  intro l
  induction l with
  | nil => intro r h; exact h
  | cons c cs ih =>
    intro r h
    simp only [List.cons_append, icContains, Bool.or_eq_true]
    exact Or.inr (ih r h)

theorem icContains_pre_false (pat : Str) (hp : pat ≠ []) {l r : Str}
    (h : icContains pat (l ++ r) = false) : icContains pat l = false := by
  cases hc : icContains pat l with
  | false => rfl
  | true =>
    rw [icContains_append_left pat hp l r hc] at h
    exact absurd h (by decide)

theorem icContains_suf_false (pat : Str) {l r : Str}
    (h : icContains pat (l ++ r) = false) : icContains pat r = false := by
  cases hc : icContains pat r with
  | false => rfl
  | true =>
    rw [icContains_append_right pat l r hc] at h
    exact absurd h (by decide)

/-! Facts about `removeDelims` needed for idempotence: its output is a
sublist of its input, contains no opening delimiter followed later by a
closing one, and it is the identity on strings already free of such a
pair. -/

theorem removeDelimsAux_sublist (o c : Char) :
    ∀ (s : Str) (st : Option Str),
      List.Sublist (removeDelimsAux o c s st)
        (match st with | none => s | some buf => buf.reverse ++ s)
  | [], none => by simp [removeDelimsAux]
  | [], some buf => by simp [removeDelimsAux]
  | x :: xs, none => by
    by_cases hx : (x == o) = true
    · simp only [removeDelimsAux, hx, if_true]
      have h := removeDelimsAux_sublist o c xs (some [x])
      simpa using h
    · simp only [removeDelimsAux, hx, if_false]
      exact (removeDelimsAux_sublist o c xs none).cons₂ x
  | x :: xs, some buf => by
    by_cases hx : (x == c) = true
    · simp only [removeDelimsAux, hx, if_true]
      exact ((removeDelimsAux_sublist o c xs none).trans
        (List.sublist_cons_self x xs)).trans
        (List.sublist_append_right buf.reverse (x :: xs))
    · simp only [removeDelimsAux, hx, if_false]
      have h := removeDelimsAux_sublist o c xs (some (x :: buf))
      simpa [List.append_assoc] using h

theorem removeDelims_sublist (o c : Char) (s : Str) :
    List.Sublist (removeDelims o c s) s :=
  removeDelimsAux_sublist o c s none

theorem removeDelimsAux_noPair (o c : Char) (hoc : o ≠ c) :
    ∀ (s : Str) (st : Option Str),
      (match st with | none => True | some buf => c ∉ buf) →
      ¬ List.Sublist [o, c] (removeDelimsAux o c s st)
  | [], none, _ => by simp [removeDelimsAux]
  | [], some buf, hbuf => by
    simp only [removeDelimsAux]
    intro h
    exact hbuf (by simpa using h.subset (by simp : c ∈ [o, c]))
  | x :: xs, none, _ => by
    by_cases hx : (x == o) = true
    · simp only [removeDelimsAux, hx, if_true]
      exact removeDelimsAux_noPair o c hoc xs (some [x])
        (by
          simp only [List.mem_singleton]
          intro he
          exact hoc ((eq_of_beq hx ▸ he : c = o).symm))
    · simp only [removeDelimsAux, hx, if_false]
      intro h
      cases h with
      | cons _ h2 => exact removeDelimsAux_noPair o c hoc xs none trivial h2
      | cons₂ _ h2 => exact hx (by simp)
  | x :: xs, some buf, hbuf => by
    by_cases hx : (x == c) = true
    · simp only [removeDelimsAux, hx, if_true]
      exact removeDelimsAux_noPair o c hoc xs none trivial
    · simp only [removeDelimsAux, hx, if_false]
      exact removeDelimsAux_noPair o c hoc xs (some (x :: buf))
        (by
          intro hm
          rcases List.mem_cons.1 hm with he | hm2
          · exact hx (by simp [he.symm])
          · exact hbuf hm2)

theorem removeDelims_noPair (o c : Char) (hoc : o ≠ c) (s : Str) :
    ¬ List.Sublist [o, c] (removeDelims o c s) :=
  removeDelimsAux_noPair o c hoc s none trivial

theorem removeDelimsAux_stuck (o c : Char) :
    ∀ (s : Str) (buf : Str), c ∉ s →
      removeDelimsAux o c s (some buf) = buf.reverse ++ s
  | [], buf, _ => by simp [removeDelimsAux]
  | x :: xs, buf, h => by
    have hx : (x == c) = false := by
      have : x ≠ c := fun he => h (he ▸ List.mem_cons_self x xs)
      simpa [beq_eq_false_iff_ne] using fun he => this (by simpa using he)
    simp only [removeDelimsAux, hx, if_false, Bool.false_eq_true]
    rw [removeDelimsAux_stuck o c xs (x :: buf)
      (fun hm => h (List.mem_cons_of_mem x hm))]
    simp [List.append_assoc]

theorem removeDelimsAux_noop (o c : Char) :
    ∀ s : Str, ¬ List.Sublist [o, c] s → removeDelimsAux o c s none = s
  | [], _ => rfl
  | x :: xs, h => by
    by_cases hx : (x == o) = true
    · have hxo : x = o := eq_of_beq hx
      have hc : c ∉ xs := by
        intro hm
        exact h (by
          rw [hxo]
          exact (List.singleton_sublist.2 hm).cons₂ o)
      simp only [removeDelimsAux, hx, if_true]
      rw [removeDelimsAux_stuck o c xs [x] hc]
      simp [hxo]
    · simp only [removeDelimsAux, hx, Bool.false_eq_true, if_false]
      rw [removeDelimsAux_noop o c xs
        (fun h2 => h (h2.cons x))]

theorem removeDelims_noop (o c : Char) (s : Str) (h : ¬ List.Sublist [o, c] s) :
    removeDelims o c s = s :=
  removeDelimsAux_noop o c s h

/-! Facts about `subSuffix`: on newline-free input the result is a prefix
of the input free of further (case-insensitive) pattern occurrences, and it
is the identity on occurrence-free strings. -/

theorem sublist_of_eq_append {u v w : Str} (hv : v = u ++ w) :
    List.Sublist u v :=
  hv ▸ List.sublist_append_left u w

theorem subSuffix_spec (pat : Str) (hp : pat ≠ []) :
    ∀ s : Str, ('\n' : Char) ∉ s →
      (∃ r, s = subSuffix pat s ++ r) ∧
      icContains pat (subSuffix pat s) = false
  | [], _ => by
    refine ⟨⟨[], rfl⟩, ?_⟩
    cases pat with
    | nil => exact absurd rfl hp
    | cons p ps => rfl
  | c :: cs, h => by
    have hcs : ('\n' : Char) ∉ cs := fun hm => h (List.mem_cons_of_mem c hm)
    have ht : ('\n' : Char) ∉ (c :: cs).drop pat.length :=
      not_mem_of_sublist (List.drop_sublist _ _) h
    have htd : ('\n' : Char) ∉ ((c :: cs).drop pat.length).dropLast :=
      not_mem_of_sublist (List.dropLast_sublist _) ht
    have htb := contains_false_of_not_mem ht
    have htdb := contains_false_of_not_mem htd
    simp only [subSuffix, htdb, Bool.not_false, Bool.and_true]
    by_cases hsw : icStartsWith pat (c :: cs) = true
    · rw [if_pos hsw, htb]
      refine ⟨⟨c :: cs, by simp⟩, ?_⟩
      cases pat with
      | nil => exact absurd rfl hp
      | cons p ps => rfl
    · rw [if_neg hsw]
      obtain ⟨⟨r, hr⟩, hic⟩ := subSuffix_spec pat hp cs hcs
      refine ⟨⟨r, by rw [List.cons_append, ← hr]⟩, ?_⟩
      simp only [icContains, hic, Bool.or_false]
      cases hsw2 : icStartsWith pat (c :: subSuffix pat cs) with
      | false => rfl
      | true =>
        have h2 := icStartsWith_append pat (c :: subSuffix pat cs) r hsw2
        rw [List.cons_append, ← hr] at h2
        exact absurd h2 hsw

theorem subSuffix_noop (pat : Str) :
    ∀ s : Str, icContains pat s = false → subSuffix pat s = s
  | [], _ => rfl
  | c :: cs, h => by
    have h2 := h
    simp only [icContains, Bool.or_eq_false_iff] at h2
    obtain ⟨hsw, hrest⟩ := h2
    simp only [subSuffix, hsw, Bool.false_and, Bool.false_eq_true, if_false]
    rw [subSuffix_noop pat cs hrest]

/-! Facts about `pyStrip`: it takes a contiguous substring, and it is
idempotent. -/

theorem dropWhile_idem (p : Char → Bool) :
    ∀ l : Str, (l.dropWhile p).dropWhile p = l.dropWhile p
  | [] => rfl
  | c :: cs => by
    by_cases hc : p c = true
    · rw [List.dropWhile_cons_of_pos hc]
      exact dropWhile_idem p cs
    · rw [List.dropWhile_cons_of_neg hc, List.dropWhile_cons_of_neg hc]

theorem exists_dropWhile_front (p : Char → Bool) :
    ∀ l : Str, ∃ t, l = t ++ l.dropWhile p
  | [] => ⟨[], rfl⟩
  | c :: cs => by
    by_cases hc : p c = true
    · obtain ⟨t, ht⟩ := exists_dropWhile_front p cs
      exact ⟨c :: t, by
        rw [List.dropWhile_cons_of_pos hc, List.cons_append, ← ht]⟩
    · exact ⟨[], by rw [List.dropWhile_cons_of_neg hc, List.nil_append]⟩

theorem head_dropWhile_false (p : Char → Bool) :
    ∀ (l : Str) {x : Char} {xs : Str}, l.dropWhile p = x :: xs → p x = false
  | [], x, xs, h => by simp at h
  | c :: cs, x, xs, h => by
    by_cases hc : p c = true
    · rw [List.dropWhile_cons_of_pos hc] at h
      exact head_dropWhile_false p cs h
    · rw [List.dropWhile_cons_of_neg hc] at h
      cases h
      exact Bool.not_eq_true _ ▸ hc

theorem dropTrail_front (p : Char → Bool) (l : Str) :
    ∃ r, l = dropTrail p l ++ r := by
  obtain ⟨t, ht⟩ := exists_dropWhile_front p l.reverse
  refine ⟨t.reverse, ?_⟩
  simp only [dropTrail]
  calc l = l.reverse.reverse := (List.reverse_reverse l).symm
    _ = (t ++ l.reverse.dropWhile p).reverse := by rw [← ht]
    _ = (l.reverse.dropWhile p).reverse ++ t.reverse := by
        rw [List.reverse_append]

theorem dropTrail_idem (p : Char → Bool) (l : Str) :
    dropTrail p (dropTrail p l) = dropTrail p l := by
  simp only [dropTrail, List.reverse_reverse]
  rw [dropWhile_idem]

theorem dropWhile_dropTrail (p : Char → Bool) (l : Str) :
    (dropTrail p (l.dropWhile p)).dropWhile p = dropTrail p (l.dropWhile p) := by
  cases hm : dropTrail p (l.dropWhile p) with
  | nil => rfl
  | cons x xs =>
    obtain ⟨r, hr⟩ := dropTrail_front p (l.dropWhile p)
    rw [hm] at hr
    have hx : p x = false :=
      head_dropWhile_false p l (by rw [hr, List.cons_append])
    rw [List.dropWhile_cons_of_neg (by simp [hx])]

theorem pyStrip_idem (l : Str) : pyStrip (pyStrip l) = pyStrip l := by
  simp only [pyStrip]
  rw [dropWhile_dropTrail isPySpace l, dropTrail_idem]

theorem pyStrip_decomp (l : Str) : ∃ t r, l = t ++ (pyStrip l ++ r) := by
  obtain ⟨t, ht⟩ := exists_dropWhile_front isPySpace l
  obtain ⟨r, hr⟩ := dropTrail_front isPySpace (l.dropWhile isPySpace)
  refine ⟨t, r, ?_⟩
  simp only [pyStrip]
  rw [← hr, ← ht]

theorem pyStrip_sublist (l : Str) : List.Sublist (pyStrip l) l := by
  obtain ⟨t, r, hl⟩ := pyStrip_decomp l
  have h1 : List.Sublist (pyStrip l) (pyStrip l ++ r) :=
    List.sublist_append_left _ _
  have h2 : List.Sublist (pyStrip l ++ r) (t ++ (pyStrip l ++ r)) :=
    List.sublist_append_right _ _
  rw [← hl] at h2
  exact h1.trans h2

/-- The function `cleanTitle` leaves a string unchanged when none of its six stages can
act on it. -/
theorem cleanTitle_noop (y : Str)
    (np1 : ¬ List.Sublist ['(', ')'] y)
    (np2 : ¬ List.Sublist ['[', ']'] y)
    (h1 : icContains "feat.".toList y = false)
    (h2 : icContains "ft.".toList y = false)
    (h3 : icContains "remix".toList y = false)
    (h4 : icContains "radio edit".toList y = false)
    (h5 : pyStrip y = y) :
    cleanTitle y = y := by
  unfold cleanTitle
  rw [removeDelims_noop _ _ _ np1, removeDelims_noop _ _ _ np2,
    subSuffix_noop _ _ h1, subSuffix_noop _ _ h2, subSuffix_noop _ _ h3,
    subSuffix_noop _ _ h4, h5]

/-- On newline-free input, `_clean_title` is idempotent: its output has no
delimiter pair, no occurrence of any of the four suffix patterns, and no
surrounding whitespace, so a second application leaves it unchanged. -/
theorem cleanTitle_idem (s : Str) (h : ('\n' : Char) ∉ s) :
    cleanTitle (cleanTitle s) = cleanTitle s := by
  have hp1 : ("feat.".toList : Str) ≠ [] := by decide
  have hp2 : ("ft.".toList : Str) ≠ [] := by decide
  have hp3 : ("remix".toList : Str) ≠ [] := by decide
  have hp4 : ("radio edit".toList : Str) ≠ [] := by decide
  set a := removeDelims '(' ')' s with ha
  set b := removeDelims '[' ']' a with hb
  have hna : ('\n' : Char) ∉ a :=
    not_mem_of_sublist (removeDelims_sublist '(' ')' s) h
  have hnb : ('\n' : Char) ∉ b :=
    not_mem_of_sublist (removeDelims_sublist '[' ']' a) hna
  obtain ⟨⟨rc, hrc⟩, hocc_feat_c⟩ := subSuffix_spec "feat.".toList hp1 b hnb
  set c := subSuffix "feat.".toList b with hcdef
  have hsub_cb : List.Sublist c b := sublist_of_eq_append hrc
  have hnc : ('\n' : Char) ∉ c := not_mem_of_sublist hsub_cb hnb
  obtain ⟨⟨rd, hrd⟩, hocc_ft_d⟩ := subSuffix_spec "ft.".toList hp2 c hnc
  set d := subSuffix "ft.".toList c with hddef
  have hsub_dc : List.Sublist d c := sublist_of_eq_append hrd
  have hnd : ('\n' : Char) ∉ d := not_mem_of_sublist hsub_dc hnc
  obtain ⟨⟨re, hre⟩, hocc_rx_e⟩ := subSuffix_spec "remix".toList hp3 d hnd
  set e := subSuffix "remix".toList d with hedef
  have hsub_ed : List.Sublist e d := sublist_of_eq_append hre
  have hne : ('\n' : Char) ∉ e := not_mem_of_sublist hsub_ed hnd
  obtain ⟨⟨rf, hrf⟩, hocc_ra_f⟩ := subSuffix_spec "radio edit".toList hp4 e hne
  set f := subSuffix "radio edit".toList e with hfdef
  have hsub_fe : List.Sublist f e := sublist_of_eq_append hrf
  -- y is the final cleaned string
  have hy : cleanTitle s = pyStrip f := rfl
  have hsub_yf : List.Sublist (pyStrip f) f := pyStrip_sublist f
  have hsub_yb : List.Sublist (pyStrip f) b :=
    hsub_yf.trans (hsub_fe.trans (hsub_ed.trans (hsub_dc.trans hsub_cb)))
  have hsub_ya : List.Sublist (pyStrip f) a :=
    hsub_yb.trans (removeDelims_sublist '[' ']' a)
  -- no delimiter pair survives
  have np1 : ¬ List.Sublist ['(', ')'] (pyStrip f) := fun hx =>
    removeDelims_noPair '(' ')' (by decide) s (hx.trans hsub_ya)
  have np2 : ¬ List.Sublist ['[', ']'] (pyStrip f) := fun hx =>
    removeDelims_noPair '[' ']' (by decide) a (hx.trans hsub_yb)
  -- no pattern occurrence survives: prefix and infix propagation
  obtain ⟨tY, rY, hYf⟩ := pyStrip_decomp f
  have propagate : ∀ pat : Str, pat ≠ [] → icContains pat f = false →
      icContains pat (pyStrip f) = false := by
    intro pat hp hf
    have h1 : icContains pat (pyStrip f ++ rY) = false :=
      icContains_suf_false pat (by rw [← hYf]; exact hf)
    exact icContains_pre_false pat hp h1
  have hocc_feat_f : icContains "feat.".toList f = false :=
    icContains_pre_false _ hp1 (by
      rw [← hrf]
      exact icContains_pre_false _ hp1 (by
        rw [← hre]
        exact icContains_pre_false _ hp1 (by
          rw [← hrd]
          exact hocc_feat_c)))
  have hocc_ft_f : icContains "ft.".toList f = false :=
    icContains_pre_false _ hp2 (by
      rw [← hrf]
      exact icContains_pre_false _ hp2 (by
        rw [← hre]
        exact hocc_ft_d))
  have hocc_rx_f : icContains "remix".toList f = false :=
    icContains_pre_false _ hp3 (by
      rw [← hrf]
      exact hocc_rx_e)
  rw [hy]
  exact cleanTitle_noop (pyStrip f)
    np1 np2
    (propagate _ hp1 hocc_feat_f)
    (propagate _ hp2 hocc_ft_f)
    (propagate _ hp3 hocc_rx_f)
    (propagate _ hp4 hocc_ra_f)
    (pyStrip_idem f)

/-- C2 counterexample: `cleanTitle` is not idempotent on every string.  On
`"remix a\nremix"` the first pass removes only the second `remix` (the
first cannot reach the end of the string across the newline, as `.` does
not match a newline and `$` only matches at the end), and stripping then
exposes a string that a second pass erases entirely. -/
theorem claim_C2_counterexample :
    cleanTitle (cleanTitle "remix a\nremix".toList) ≠
      cleanTitle "remix a\nremix".toList ∧
    cleanTitle "remix a\nremix".toList = "remix a".toList ∧
    cleanTitle "remix a".toList = [] := by
  refine ⟨by decide, by decide, by decide⟩

/-- C2 (amended): `cleanTitle` is idempotent on every input that contains
no newline character (the regex stages act on single-line titles; a
newline lets a leftmost occurrence survive the first pass), and the three
documented examples hold. -/
theorem claim_C2 :
    (∀ s : Str, ('\n' : Char) ∉ s →
      cleanTitle (cleanTitle s) = cleanTitle s) ∧
    cleanTitle "Song (Radio Edit)".toList = "Song".toList ∧
    cleanTitle "Song [Remix]".toList = "Song".toList ∧
    cleanTitle "Song feat. X".toList = "Song".toList :=
  ⟨cleanTitle_idem, by decide, by decide, by decide⟩

/-- Witness for C2 at a concrete input: a newline-free title with noise in
several stages is cleaned to a fixed point. -/
theorem claim_C2_witness :
    (('\n' : Char) ∉ "Tune (Club Mix) [Live] feat. DJ Q".toList) ∧
    cleanTitle (cleanTitle "Tune (Club Mix) [Live] feat. DJ Q".toList) =
      cleanTitle "Tune (Club Mix) [Live] feat. DJ Q".toList :=
  ⟨by decide, claim_C2.1 "Tune (Club Mix) [Live] feat. DJ Q".toList (by decide)⟩

end MusicTM